import Mathlib

/-!
Shallow embedding of scripts/crawl_cli.py.

The script delegates fetching to an external crawling library; its own logic is
the resolution of the markdown field, filename sanitization, output-path
construction, the per-result loop of the site crawl (error counting, blank-page
skipping, file naming and formatting), the sort of the final page list, and the
index file assembly.  We embed those parts as pure functions.  The results that
the external library would return are passed in explicitly as a list of
CrawlResult values; file writes are collected into an explicit list instead of
touching a filesystem, and stdout/stderr lines are collected into lists.
-/

/-- Python truthiness-based or on strings: a nonempty string is truthy. -/
def pyOrStr (a b : String) : String := if a = "" then b else a

/-- Value of the dynamically typed field result.markdown: it is either None, a
plain string, or an object carrying raw_markdown and fit_markdown attributes.
An attribute that is absent defaults to the empty string via getattr, and an
attribute that is None is falsy like the empty string, so both are modelled as
Option.none; both behave identically in the or-chain of get_markdown. -/
inductive MarkdownVal where
  | none
  | str (s : String)
  | obj (raw_markdown fit_markdown : Option String)
deriving DecidableEq

/-- Embedding of get_markdown (crawl_cli.py lines 21-28): extract a markdown
string from a crawl result markdown field. -/
def get_markdown : MarkdownVal → String
  | MarkdownVal.none => ""
  | MarkdownVal.str s => s
  | MarkdownVal.obj r f => pyOrStr (r.getD "") (pyOrStr (f.getD "") "")

/-- Result of urllib.parse.urlparse restricted to the components the script
reads (params are merged into the split, see urlparse below). -/
structure ParseResult where
  scheme : String
  netloc : String
  path : String
  query : String
  fragment : String
deriving DecidableEq

/-- Split a character list at the first occurrence of sep, returning the parts
before and after it, or none when sep does not occur. -/
def splitAtChar (sep : Char) : List Char → Option (List Char × List Char)
  | [] => Option.none
  | c :: cs =>
    if c = sep then some ([], cs)
    else
      match splitAtChar sep cs with
      | some (b, a) => some (c :: b, a)
      | Option.none => Option.none

/-- Characters allowed in a URL scheme by urllib.parse (scheme_chars). -/
def isSchemeChar (c : Char) : Bool :=
  c.isAlpha || c.isDigit || c = '+' || c = '-' || c = '.'

/-- Netloc extraction of urllib.parse: the netloc extends to the first of
the delimiters slash, question mark or hash. -/
def takeNetloc : List Char → List Char × List Char
  | [] => ([], [])
  | c :: cs =>
    if c = '/' || c = '?' || c = '#' then ([], c :: cs)
    else
      let r := takeNetloc cs
      (c :: r.1, r.2)

/-- Head of a character list is an ASCII letter (the urlsplit scheme guard
url[0].isascii() and url[0].isalpha()). -/
def headIsAlpha : List Char → Bool
  | [] => false
  | c :: _ => c.isAlpha

/-- Schemes for which urllib.parse.urlparse splits params from the path. -/
def uses_params : List String :=
  ["", "ftp", "hdl", "prospero", "http", "imap", "https", "shttp", "rtsp",
   "rtsps", "rtspu", "sip", "sips", "snews", "tel", "telnet", "mms", "sftp"]

/-- Drop a params suffix starting at the first semicolon of a segment. -/
def dropParamsSeg (seg : List Char) : List Char :=
  match splitAtChar ';' seg with
  | some (b, _) => b
  | Option.none => seg

/-- Embedding of urllib.parse: the params split applied to a path that
contains a semicolon: the search for the semicolon starts at the last slash
when the path contains one. -/
def splitParamsPath (p : List Char) : List Char :=
  if p.contains '/' then
    let rev := p.reverse
    let segRev := rev.takeWhile (fun c => c ≠ '/')
    let preRev := rev.dropWhile (fun c => c ≠ '/')
    preRev.reverse ++ dropParamsSeg segRev.reverse
  else dropParamsSeg p

/-- Scheme split of urlsplit: when the text before the first colon starts
with an ASCII letter and consists of scheme characters, it is the scheme,
lowercased; otherwise there is no scheme. -/
def splitScheme (cs : List Char) : List Char × List Char :=
  match splitAtChar ':' cs with
  | some (before, after) =>
    if headIsAlpha before && before.all isSchemeChar then
      (before.map Char.toLower, after)
    else (([] : List Char), cs)
  | Option.none => (([] : List Char), cs)

/-- Netloc split of urlsplit: the netloc follows a leading double slash and
extends to the next delimiter. -/
def splitNetlocPart (cs : List Char) : List Char × List Char :=
  if cs.take 2 = ['/', '/'] then takeNetloc (cs.drop 2) else ([], cs)

/-- Fragment split of urlsplit at the first hash character. -/
def splitFragmentPart (cs : List Char) : List Char × List Char :=
  match splitAtChar '#' cs with
  | some (b, a) => (b, a)
  | Option.none => (cs, ([] : List Char))

/-- Query split of urlsplit at the first question mark. -/
def splitQueryPart (cs : List Char) : List Char × List Char :=
  match splitAtChar '?' cs with
  | some (b, a) => (b, a)
  | Option.none => (cs, ([] : List Char))

/-- Model of urllib.parse.urlparse for the components the script uses,
following the CPython splitting algorithm: an optional scheme (a leading ASCII
letter followed by scheme characters, up to the first colon, lowercased), an
optional netloc after a double slash up to a delimiter, then the fragment
split at the first hash, the query at the first question mark, and for schemes
in uses_params the params split from the last path segment.  The CPython
preprocessing of control characters and the bracket validation of IPv6 hosts
are outside the inputs of interest and are not modelled. -/
def urlparse (url : String) : ParseResult :=
  let sr := splitScheme url.toList
  let nr := splitNetlocPart sr.2
  let fr := splitFragmentPart nr.2
  let qr := splitQueryPart fr.1
  let path :=
    if uses_params.contains (String.mk sr.1) && qr.1.contains ';' then
      splitParamsPath qr.1
    else qr.1
  ⟨String.mk sr.1, String.mk nr.1, String.mk path, String.mk qr.2,
   String.mk fr.2⟩

/-- Word characters of the regex class backslash-w, ASCII range: letters,
digits and underscore.  Python additionally treats non-ASCII word characters
as word characters; for the properties proved here only the membership of
underscore and the exclusion of the delimiter characters matter, which agree
on the two readings. -/
def isWordChar (c : Char) : Bool := c.isAlphanum || c = '_'

/-- Characters kept by the substitution re.sub of sanitize_filename: word
characters, hyphen and dot. -/
def isFilenameKeep (c : Char) : Bool := isWordChar c || c = '-' || c = '.'

/-- Embedding of sanitize_filename (crawl_cli.py lines 31-36): strip slashes
from both ends of the parsed path, replace interior slashes by underscores,
fall back to the name index when empty, replace every character outside word
characters, hyphen and dot by an underscore, and truncate to 100 characters. -/
def sanitize_filename (url : String) : String :=
  let parsed := urlparse url
  let stripped :=
    ((parsed.path.toList.dropWhile (fun c => c = '/')).reverse.dropWhile
      (fun c => c = '/')).reverse
  let replaced := stripped.map (fun c => if c = '/' then '_' else c)
  let path := if replaced = [] then "index".toList else replaced
  let subbed := path.map (fun c => if isFilenameKeep c then c else '_')
  String.mk (subbed.take 100)

/-- Embedding of get_output_dir (crawl_cli.py lines 39-42): the per-domain
output directory, the netloc with colons replaced by underscores joined under
the base directory. -/
def get_output_dir (url : String) (base_dir : String) : String :=
  let domain :=
    String.mk ((urlparse url).netloc.toList.map (fun c => if c = ':' then '_' else c))
  base_dir ++ "/" ++ domain

/-- Decimal digit character for a value below ten. -/
def digitChar : Nat → Char
  | 0 => '0'
  | 1 => '1'
  | 2 => '2'
  | 3 => '3'
  | 4 => '4'
  | 5 => '5'
  | 6 => '6'
  | 7 => '7'
  | 8 => '8'
  | 9 => '9'
  | _ => '*'

/-- Decimal digits of a natural number, least significant first, computed by
repeated division by ten with a structural fuel argument in the style of the
core renderer; the fuel never runs out when it starts at least at n + 1. -/
def natDigitsRevAux : Nat → Nat → List Char
  | _, 0 => []
  | n, fuel + 1 =>
    if n < 10 then [digitChar n]
    else digitChar (n % 10) :: natDigitsRevAux (n / 10) fuel

/-- Decimal digits of a natural number, least significant first. -/
def natDigitsRev (n : Nat) : List Char := natDigitsRevAux n (n + 1)

/-- Python str applied to a natural number. -/
def natRepr (n : Nat) : String := String.mk (natDigitsRev n).reverse

/-- Python str applied to an integer: a minus sign followed by the digits for
a negative value, the digits alone otherwise. -/
def intRepr (i : Int) : String :=
  if i < 0 then "-" ++ natRepr (-i).toNat else natRepr i.toNat

/-- Python comma grouping on the reversed digit list: groups of three from
the least significant digit. -/
def commaRev : List Char → List Char
  | [] => []
  | a :: b :: c :: d :: rest => a :: b :: c :: ',' :: commaRev (d :: rest)
  | ds => ds

/-- Python format spec with a comma separator applied to a natural number. -/
def formatComma (n : Nat) : String :=
  String.mk ((commaRev (natDigitsRev n)).reverse)

/-- Python format spec 03d applied to a list index: the decimal digits padded
with leading zeros to width three. -/
def formatOrd (i : Nat) : String :=
  let s := natRepr i
  if s.length < 3 then String.mk (List.replicate (3 - s.length) '0') ++ s else s

/-- Test not content.strip() of the site loop: the string has no character
outside whitespace.  Python strips a slightly larger whitespace class than
Char.isWhitespace; the difference is irrelevant to the properties proved. -/
def isBlank (s : String) : Bool := s.toList.all Char.isWhitespace

/-- One result object as returned by the crawling library for one page.
The title and depth attributes may be absent or None; both are modelled by
Option.none since the script reads them through getattr with a falsy default
followed by a truthiness or. -/
structure CrawlResult where
  success : Bool
  url : String
  error_message : String
  markdown : MarkdownVal
  title : Option String
  depth : Option Int
deriving DecidableEq

/-- Resolution getattr(r, "title", "") or r.url used by both commands. -/
def attrTitle (title : Option String) (url : String) : String :=
  pyOrStr (title.getD "") url

/-- Resolution getattr(r, "depth", 0) or 0: an absent or None attribute and
the falsy value 0 all yield 0; any other integer is returned unchanged. -/
def attrDepth (depth : Option Int) : Int :=
  match depth with
  | some v => if v = 0 then 0 else v
  | Option.none => 0

/-- One filesystem write: destination path and full file content. -/
structure FileWrite where
  path : String
  content : String
deriving DecidableEq

/-- Observable outcome of the single-page command crawl_page. -/
structure CrawlPageOutput where
  writes : List FileWrite
  stdout : List String
  stderr : List String
  exit_code : Nat
deriving DecidableEq

/-- Embedding of crawl_page (crawl_cli.py lines 45-72) given the result the
library returns for the url: on failure it prints the error to stderr and
exits with status 1 writing nothing; on success it writes the page file and
exits normally. -/
def crawl_page (url : String) (output_dir : String) (result : CrawlResult) :
    CrawlPageOutput :=
  let out_dir := get_output_dir url output_dir
  let startLine := "Crawling " ++ url ++ " ..."
  if result.success = false then
    ⟨[], [startLine], ["Error: " ++ result.error_message], 1⟩
  else
    let content := get_markdown result.markdown
    let filename := sanitize_filename url ++ ".md"
    let filepath := out_dir ++ "/" ++ filename
    let title := attrTitle result.title url
    ⟨[⟨filepath, "# " ++ title ++ "\n\nURL: " ++ url ++ "\n\n" ++ content⟩],
     [startLine, "Saved: " ++ filepath,
      "Size: " ++ formatComma content.length ++ " chars"],
     [], 0⟩

/-- Entry appended to the pages list of the site crawl (crawl_cli.py
lines 117-123). -/
structure PageEntry where
  file : String
  url : String
  title : String
  depth : Int
  size : Nat
deriving DecidableEq

/-- Page file content written by the site loop (crawl_cli.py line 115). -/
def pageFileContent (title url : String) (depth : Int) (content : String) :
    String :=
  "# " ++ title ++ "\n\nURL: " ++ url ++ "\nDepth: " ++ intRepr depth ++
    "\n\n" ++ content

/-- Outcome of one iteration of the site loop for one result: an error, a
silent skip of a blank page, or a written page with its index entry. -/
inductive SiteStep where
  | err
  | skip
  | page (w : FileWrite) (p : PageEntry)
deriving DecidableEq

/-- One iteration of the site loop (crawl_cli.py lines 102-123) at enumerate
index i: a failed result counts an error, a successful result whose markdown
strips to nothing is skipped, and otherwise the page file is written and an
entry recorded whose size is the character length of the markdown. -/
def siteStep (pages_dir : String) (i : Nat) (r : CrawlResult) : SiteStep :=
  if r.success = false then SiteStep.err
  else
    let content := get_markdown r.markdown
    if isBlank content then SiteStep.skip
    else
      let title := attrTitle r.title r.url
      let depth := attrDepth r.depth
      let filename := formatOrd i ++ "_" ++ sanitize_filename r.url ++ ".md"
      let filepath := pages_dir ++ "/" ++ filename
      SiteStep.page ⟨filepath, pageFileContent title r.url depth content⟩
        ⟨filepath, r.url, title, depth, content.length⟩

/-- The site loop over the enumerated results starting at index i, returning
the written pages paired with their entries, in loop order, together with the
final error count. -/
def siteLoop (pages_dir : String) : Nat → List CrawlResult →
    List (FileWrite × PageEntry) × Nat
  | _, [] => ([], 0)
  | i, r :: rs =>
    let rest := siteLoop pages_dir (i + 1) rs
    match siteStep pages_dir i r with
    | SiteStep.err => (rest.1, rest.2 + 1)
    | SiteStep.skip => rest
    | SiteStep.page w p => ((w, p) :: rest.1, rest.2)

/-- Lexicographic comparison of character lists by code point, the order
Python uses on strings. -/
def strLe : List Char → List Char → Bool
  | [], _ => true
  | _ :: _, [] => false
  | a :: as, b :: bs =>
    if a < b then true else if b < a then false else strLe as bs

/-- Sort key order of the site crawl, line 125: the tuple (depth, url)
compared lexicographically, depth first, then the url by code points. -/
def pageLe (p q : PageEntry) : Bool :=
  decide (p.depth < q.depth) ||
    (decide (p.depth = q.depth) && strLe p.url.toList q.url.toList)

/-- Lines of the index file (crawl_cli.py lines 129-137), before joining. -/
def indexLines (url : String) (max_depth : Int) (pages : List PageEntry)
    (errors : Nat) : List String :=
  ["# Crawl Index: " ++ url ++ "\n",
   "Pages: " ++ natRepr pages.length ++ " crawled, " ++ natRepr errors ++
     " errors",
   "Depth: " ++ intRepr max_depth ++ "\n",
   "## Pages\n"] ++
  pages.flatMap (fun p =>
    ["- [" ++ p.title ++ "](" ++ p.file ++ ") — depth " ++ intRepr p.depth ++
       ", " ++ formatComma p.size ++ " chars",
     "  " ++ p.url])

/-- Observable outcome of the site command crawl_site. -/
structure SiteOutput where
  writes : List FileWrite
  pages : List PageEntry
  errors : Nat
  total_size : Nat
  stdout : List String
  exit_code : Nat
deriving DecidableEq

/-- Embedding of crawl_site (crawl_cli.py lines 75-145) given the list of
results the deep crawl returns (a single non-list result is wrapped into a
one-element list by line 100, so a list is taken here).  Page files are
written during the loop in enumerate order; the collected entries are then
sorted by the key (depth, url); the index file is written last; the function
never exits with a failure status. -/
def crawl_site (url : String) (max_depth max_pages : Int) (output_dir : String)
    (results : List CrawlResult) : SiteOutput :=
  let out_dir := get_output_dir url output_dir
  let pages_dir := out_dir ++ "/pages"
  let loop := siteLoop pages_dir 0 results
  let errors := loop.2
  let pages := (loop.1.map Prod.snd).mergeSort pageLe
  let index_path := out_dir ++ "/index.md"
  let index_content :=
    String.intercalate "\n" (indexLines url max_depth pages errors) ++ "\n"
  let total_size := (pages.map PageEntry.size).sum
  ⟨loop.1.map Prod.fst ++ [⟨index_path, index_content⟩],
   pages, errors, total_size,
   ["Deep crawling " ++ url ++ " (depth=" ++ intRepr max_depth ++
      ", max_pages=" ++ intRepr max_pages ++ ") ...",
    "\nCrawl complete!",
    "Pages: " ++ natRepr pages.length ++ " crawled, " ++ natRepr errors ++
      " errors",
    "Index: " ++ index_path,
    "Pages dir: " ++ pages_dir,
    "Total content: " ++ formatComma total_size ++ " chars"],
   0⟩

/-- Clamping performed by main for the site command (crawl_cli.py lines
166-167) before the arguments reach crawl_site. -/
def site_args (depth max_pages : Int) : Int × Int :=
  (max 1 (min 10 depth), max 1 (min 500 max_pages))

/-- Depth change of one path component during resolution: dot and the empty
component stay in place, dot-dot pops one level, anything else descends. -/
def escapesAux : List String → Nat → Bool
  | [], _ => false
  | c :: cs, d =>
    if c = ".." then (if d = 0 then true else escapesAux cs (d - 1))
    else if c = "." || c = "" then escapesAux cs d
    else escapesAux cs (d + 1)

/-- Split of a character list at slash separators into path components. -/
def splitSlashAux : List Char → List Char → List String
  | [], acc => [String.mk acc.reverse]
  | c :: cs, acc =>
    if c = '/' then String.mk acc.reverse :: splitSlashAux cs []
    else splitSlashAux cs (c :: acc)

/-- A relative path escapes the directory it is resolved against when some
prefix of its components pops above the start, the formal reading of a write
landing outside the output root. -/
def escapesRoot (rel : String) : Bool := escapesAux (splitSlashAux rel.toList []) 0

/-- Join of path components with the slash separator, the reading of a
relative path as a component list used by escapesAux. -/
def joinPath : List String → String
  | [] => ""
  | [s] => s
  | s :: rest => s ++ "/" ++ joinPath rest

/-- Layout of a page file as the specification words it: a header line with
the title, then directly a URL line, a depth line, a blank line, and the
markdown body.  Stated for comparison with pageFileContent, which the script
actually writes. -/
def claimedPageFileLayout (title url : String) (depth : Int)
    (content : String) : String :=
  "# " ++ title ++ "\nURL: " ++ url ++ "\nDepth: " ++ intRepr depth ++
    "\n\n" ++ content

/-! Projection lemmas for crawl_site, by definitional unfolding. -/

theorem crawl_site_pages (url : String) (max_depth max_pages : Int)
    (output_dir : String) (results : List CrawlResult) :
    (crawl_site url max_depth max_pages output_dir results).pages =
      ((siteLoop (get_output_dir url output_dir ++ "/pages") 0 results).1.map
        Prod.snd).mergeSort pageLe := rfl

theorem crawl_site_errors_def (url : String) (max_depth max_pages : Int)
    (output_dir : String) (results : List CrawlResult) :
    (crawl_site url max_depth max_pages output_dir results).errors =
      (siteLoop (get_output_dir url output_dir ++ "/pages") 0 results).2 := rfl

theorem crawl_site_writes_def (url : String) (max_depth max_pages : Int)
    (output_dir : String) (results : List CrawlResult) :
    (crawl_site url max_depth max_pages output_dir results).writes =
      (siteLoop (get_output_dir url output_dir ++ "/pages") 0 results).1.map
          Prod.fst ++
        [⟨get_output_dir url output_dir ++ "/index.md",
          String.intercalate "\n"
              (indexLines url max_depth
                (crawl_site url max_depth max_pages output_dir results).pages
                (siteLoop (get_output_dir url output_dir ++ "/pages") 0
                    results).2) ++
            "\n"⟩] := rfl

theorem crawl_site_total_size_def (url : String) (max_depth max_pages : Int)
    (output_dir : String) (results : List CrawlResult) :
    (crawl_site url max_depth max_pages output_dir results).total_size =
      ((crawl_site url max_depth max_pages output_dir results).pages.map
        PageEntry.size).sum := rfl

theorem crawl_site_exit_code (url : String) (max_depth max_pages : Int)
    (output_dir : String) (results : List CrawlResult) :
    (crawl_site url max_depth max_pages output_dir results).exit_code = 0 := rfl

/-! Behaviour of one step of the site loop. -/

theorem siteStep_err_iff (pd : String) (i : Nat) (r : CrawlResult) :
    siteStep pd i r = SiteStep.err ↔ r.success = false := by
  cases hs : r.success with
  | false => simp [siteStep, hs]
  | true =>
    simp only [siteStep, hs]
    constructor
    · intro h
      split at h
      · simp_all
      · split at h <;> exact SiteStep.noConfusion h
    · intro h
      simp at h

theorem siteStep_skip_of_blank (pd : String) (i : Nat) (r : CrawlResult)
    (hs : r.success = true) (hb : isBlank (get_markdown r.markdown) = true) :
    siteStep pd i r = SiteStep.skip := by
  simp [siteStep, hs, hb]

theorem siteStep_page_of_content (pd : String) (i : Nat) (r : CrawlResult)
    (hs : r.success = true) (hb : isBlank (get_markdown r.markdown) = false) :
    siteStep pd i r =
      SiteStep.page
        ⟨pd ++ "/" ++ (formatOrd i ++ "_" ++ sanitize_filename r.url ++ ".md"),
         pageFileContent (attrTitle r.title r.url) r.url (attrDepth r.depth)
           (get_markdown r.markdown)⟩
        ⟨pd ++ "/" ++ (formatOrd i ++ "_" ++ sanitize_filename r.url ++ ".md"),
         r.url, attrTitle r.title r.url, attrDepth r.depth,
         (get_markdown r.markdown).length⟩ := by
  simp [siteStep, hs, hb]

theorem siteLoop_errors (pd : String) (rs : List CrawlResult) :
    ∀ i, (siteLoop pd i rs).2 = rs.countP (fun r => !r.success) := by
  induction rs with
  | nil => intro i; simp [siteLoop]
  | cons r rs ih =>
    intro i
    simp only [siteLoop]
    cases hs : r.success with
    | false =>
      have h := (siteStep_err_iff pd i r).2 hs
      simp [h, ih, List.countP_cons, hs]
    | true =>
      have hne : siteStep pd i r ≠ SiteStep.err := by
        simp [siteStep_err_iff, hs]
      cases h : siteStep pd i r with
      | err => exact absurd h hne
      | skip => simp [h, ih, List.countP_cons, hs]
      | page w p => simp [h, ih, List.countP_cons, hs]

/-- C1: in a site crawl every per-page failure is recovered locally: the
final error count equals the number of unsuccessful results (each failed
result is counted exactly once by the loop and processing continues), and the
index file is still written, as the last write, into the per-domain
directory. -/
theorem site_failures_counted_and_index_written (url : String)
    (max_depth max_pages : Int) (output_dir : String)
    (results : List CrawlResult) :
    (crawl_site url max_depth max_pages output_dir results).errors =
      results.countP (fun r => !r.success) ∧
    ∃ ic, (crawl_site url max_depth max_pages output_dir
        results).writes.getLast? =
      some ⟨get_output_dir url output_dir ++ "/index.md", ic⟩ := by
  constructor
  · rw [crawl_site_errors_def, siteLoop_errors]
  · exact ⟨_, by rw [crawl_site_writes_def, List.getLast?_concat]⟩

/-- C2 counterexample: the single-page crawl does not skip persisting a page
whose markdown is whitespace-only; for a successful fetch with blank markdown
it still writes one page file, contradicting the claim that the skip holds
for every crawl command. -/
theorem crawl_page_blank_still_writes :
    isBlank (get_markdown (MarkdownVal.str "  \n")) = true ∧
    (crawl_page "http://e/x" "out"
        ⟨true, "http://e/x", "", MarkdownVal.str "  \n", Option.none,
         Option.none⟩).writes =
      [⟨"out/e/x.md", "# http://e/x\n\nURL: http://e/x\n\n  \n"⟩] := by
  constructor
  · decide
  · decide

/-- C2 amended: whenever the extracted markdown of a successfully fetched
page contains no non-whitespace text, the site crawl skips the page entirely,
writing no file, adding no index entry, and counting no error, and continues
with the following results; the single-page crawl, by contrast, persists the
page file of a successful fetch regardless of blank markdown. -/
theorem blank_markdown_skipped (pages_dir : String) (i : Nat)
    (r : CrawlResult) (rs : List CrawlResult) (url output_dir : String)
    (hs : r.success = true) (hb : isBlank (get_markdown r.markdown) = true) :
    siteLoop pages_dir i (r :: rs) = siteLoop pages_dir (i + 1) rs ∧
    (crawl_page url output_dir r).writes.length = 1 := by
  constructor
  · have h := siteStep_skip_of_blank pages_dir i r hs hb
    simp [siteLoop, h]
  · simp [crawl_page, hs]

/-- C2 witness at a concrete blank successful result. -/
theorem blank_markdown_skipped_witness :
    ((⟨true, "http://e/x", "", MarkdownVal.str " \t ", Option.none,
        Option.none⟩ : CrawlResult).success = true ∧
      isBlank (get_markdown
        (⟨true, "http://e/x", "", MarkdownVal.str " \t ", Option.none,
          Option.none⟩ : CrawlResult).markdown) = true) ∧
    (siteLoop "out/e/pages" 0
        [⟨true, "http://e/x", "", MarkdownVal.str " \t ", Option.none,
          Option.none⟩] =
      siteLoop "out/e/pages" (0 + 1) [] ∧
    (crawl_page "http://e/x" "out"
        ⟨true, "http://e/x", "", MarkdownVal.str " \t ", Option.none,
         Option.none⟩).writes.length = 1) :=
  ⟨⟨by decide, by decide⟩,
   blank_markdown_skipped "out/e/pages" 0 _ [] "http://e/x" "out"
     (by decide) (by decide)⟩

/-- C3: when the fetch of the single-page crawl is unsuccessful the program
prints the error message to standard error and exits with the failure status
1 (nonzero), writing no page file; the site crawl always finishes with exit
status 0, reporting only the aggregate error count in its summary output. -/
theorem page_failure_exits_and_site_never_fails (url output_dir : String)
    (r : CrawlResult) (h : r.success = false) :
    (crawl_page url output_dir r).exit_code = 1 ∧
    (crawl_page url output_dir r).writes = [] ∧
    (crawl_page url output_dir r).stderr =
      ["Error: " ++ r.error_message] ∧
    ∀ (u : String) (md mp : Int) (o : String) (results : List CrawlResult),
      (crawl_site u md mp o results).exit_code = 0 ∧
      "Pages: " ++ natRepr (crawl_site u md mp o results).pages.length ++
          " crawled, " ++ natRepr (crawl_site u md mp o results).errors ++
          " errors" ∈ (crawl_site u md mp o results).stdout := by
  refine ⟨by simp [crawl_page, h], by simp [crawl_page, h],
    by simp [crawl_page, h], ?_⟩
  intro u md mp o results
  constructor
  · rfl
  · simp [crawl_site]

/-- C3 witness at a concrete failed result. -/
theorem page_failure_exits_and_site_never_fails_witness :
    (⟨false, "http://e/x", "boom", MarkdownVal.none, Option.none,
        Option.none⟩ : CrawlResult).success = false ∧
    ((crawl_page "http://e/x" "out"
        ⟨false, "http://e/x", "boom", MarkdownVal.none, Option.none,
         Option.none⟩).exit_code = 1 ∧
      (crawl_page "http://e/x" "out"
        ⟨false, "http://e/x", "boom", MarkdownVal.none, Option.none,
         Option.none⟩).writes = [] ∧
      (crawl_page "http://e/x" "out"
        ⟨false, "http://e/x", "boom", MarkdownVal.none, Option.none,
         Option.none⟩).stderr =
        ["Error: " ++
          (⟨false, "http://e/x", "boom", MarkdownVal.none, Option.none,
            Option.none⟩ : CrawlResult).error_message] ∧
      ∀ (u : String) (md mp : Int) (o : String) (results : List CrawlResult),
        (crawl_site u md mp o results).exit_code = 0 ∧
        "Pages: " ++ natRepr (crawl_site u md mp o results).pages.length ++
            " crawled, " ++ natRepr (crawl_site u md mp o results).errors ++
            " errors" ∈ (crawl_site u md mp o results).stdout) :=
  ⟨rfl, page_failure_exits_and_site_never_fails "http://e/x" "out" _ rfl⟩

/-- C4: for every pair of integer arguments the values passed on by main to
the site crawl are the clamped ones, so the effective depth equals
max(1, min(10, d)) and lies in the interval from 1 to 10, and the effective
page bound equals max(1, min(500, p)) and lies in the interval from 1 to
500. -/
theorem site_args_clamped_bounds (d p : Int) :
    site_args d p = (max 1 (min 10 d), max 1 (min 500 p)) ∧
    1 ≤ (site_args d p).1 ∧ (site_args d p).1 ≤ 10 ∧
    1 ≤ (site_args d p).2 ∧ (site_args d p).2 ≤ 500 := by
  refine ⟨rfl, le_max_left _ _, max_le (by norm_num) (min_le_left _ _),
    le_max_left _ _, max_le (by norm_num) (min_le_left _ _)⟩

/-- C8: the markdown resolution is a total function into strings: the empty
string for None, the string itself for a plain string, and for an object the
raw_markdown field, falling back to the fit_markdown field when the former is
empty or absent, falling back to the empty string. -/
theorem get_markdown_total_resolution (m : MarkdownVal) :
    get_markdown m =
      match m with
      | MarkdownVal.none => ""
      | MarkdownVal.str s => s
      | MarkdownVal.obj r f =>
        if r.getD "" ≠ "" then r.getD ""
        else if f.getD "" ≠ "" then f.getD "" else "" := by
  cases m with
  | none => rfl
  | str s => rfl
  | obj r f =>
    by_cases hr : r.getD "" = "" <;> by_cases hf : f.getD "" = "" <;>
      simp [get_markdown, pyOrStr, hr, hf]

/-! Order properties of the sort key used at line 125. -/

theorem strLe_total (a : List Char) : ∀ b, (strLe a b || strLe b a) = true := by
  induction a with
  | nil => intro b; simp [strLe]
  | cons x xs ih =>
    intro b
    cases b with
    | nil => simp [strLe]
    | cons y ys =>
      by_cases h1 : x < y
      · simp [strLe, h1]
      · by_cases h2 : y < x
        · simp [strLe, h1, h2]
        · simpa [strLe, h1, h2] using ih ys

theorem strLe_trans (a : List Char) :
    ∀ b c, strLe a b = true → strLe b c = true → strLe a c = true := by
  induction a with
  | nil => intro b c _ _; simp [strLe]
  | cons x xs ih =>
    intro b c h1 h2
    cases b with
    | nil => simp [strLe] at h1
    | cons y ys =>
      cases c with
      | nil => simp [strLe] at h2
      | cons z zs =>
        by_cases hxy : x < y
        · by_cases hyz : y < z
          · simp [strLe, lt_trans hxy hyz]
          · by_cases hzy : z < y
            · simp [strLe, hyz, hzy] at h2
            · have he : y = z := le_antisymm (le_of_not_lt hzy) (le_of_not_lt hyz)
              subst he
              simp [strLe, hxy]
        · by_cases hyx : y < x
          · simp [strLe, hxy, hyx] at h1
          · have he : x = y := le_antisymm (le_of_not_lt hyx) (le_of_not_lt hxy)
            subst he
            simp only [strLe, if_neg hxy, if_neg hyx] at h1
            by_cases hxz : x < z
            · simp [strLe, hxz]
            · by_cases hzx : z < x
              · simp [strLe, hxz, hzx] at h2
              · have he2 : x = z := le_antisymm (le_of_not_lt hzx) (le_of_not_lt hxz)
                subst he2
                simp only [strLe, if_neg hxz, if_neg hzx] at h2 ⊢
                exact ih ys zs h1 h2

theorem pageLe_trans (a b c : PageEntry) (h1 : pageLe a b = true)
    (h2 : pageLe b c = true) : pageLe a c = true := by
  simp only [pageLe, Bool.or_eq_true, Bool.and_eq_true, decide_eq_true_eq]
    at h1 h2 ⊢
  rcases h1 with h1 | ⟨h1e, h1s⟩ <;> rcases h2 with h2 | ⟨h2e, h2s⟩
  · exact Or.inl (lt_trans h1 h2)
  · exact Or.inl (h2e ▸ h1)
  · exact Or.inl (h1e ▸ h2)
  · exact Or.inr ⟨h1e.trans h2e, strLe_trans _ _ _ h1s h2s⟩

theorem pageLe_total (a b : PageEntry) : (pageLe a b || pageLe b a) = true := by
  simp only [pageLe, Bool.or_eq_true, Bool.and_eq_true, decide_eq_true_eq]
  rcases lt_trichotomy a.depth b.depth with h | h | h
  · exact Or.inl (Or.inl h)
  · have ht := strLe_total a.url.toList b.url.toList
    simp only [Bool.or_eq_true] at ht
    rcases ht with hs | hs
    · exact Or.inl (Or.inr ⟨h, hs⟩)
    · exact Or.inr (Or.inr ⟨h.symm, hs⟩)
  · exact Or.inr (Or.inl h)

/-- C5: the final page list assembled by the site crawl is sorted by depth
ascending and, within equal depth, by URL in code-point lexicographic order,
and it is a permutation of the entries collected by the loop, whatever the
arrival order of the results was. -/
theorem site_pages_sorted_by_depth_then_url (url : String)
    (max_depth max_pages : Int) (output_dir : String)
    (results : List CrawlResult) :
    List.Sorted
      (fun p q : PageEntry =>
        p.depth < q.depth ∨
          (p.depth = q.depth ∧ strLe p.url.toList q.url.toList = true))
      (crawl_site url max_depth max_pages output_dir results).pages ∧
    (crawl_site url max_depth max_pages output_dir results).pages.Perm
      ((siteLoop (get_output_dir url output_dir ++ "/pages") 0
          results).1.map Prod.snd) := by
  rw [crawl_site_pages]
  constructor
  · have hs := @List.sorted_mergeSort PageEntry pageLe pageLe_trans
      pageLe_total
      ((siteLoop (get_output_dir url output_dir ++ "/pages") 0
          results).1.map Prod.snd)
    refine List.Pairwise.imp ?_ hs
    intro p q h
    simpa only [pageLe, Bool.or_eq_true, Bool.and_eq_true,
      decide_eq_true_eq] using h
  · exact List.mergeSort_perm _ _

/-! Inversion and membership lemmas for the site loop. -/

theorem siteStep_page_inv (pd : String) (i : Nat) (r : CrawlResult)
    (w : FileWrite) (p : PageEntry)
    (h : siteStep pd i r = SiteStep.page w p) :
    r.success = true ∧ isBlank (get_markdown r.markdown) = false ∧
    w.path = p.file ∧
    w.content =
      pageFileContent p.title p.url p.depth (get_markdown r.markdown) ∧
    p.size = (get_markdown r.markdown).length := by
  cases hs : r.success with
  | false =>
    rw [(siteStep_err_iff pd i r).2 hs] at h
    exact SiteStep.noConfusion h
  | true =>
    cases hb : isBlank (get_markdown r.markdown) with
    | true =>
      rw [siteStep_skip_of_blank pd i r hs hb] at h
      exact SiteStep.noConfusion h
    | false =>
      rw [siteStep_page_of_content pd i r hs hb] at h
      injection h with hw hp
      subst hw
      subst hp
      exact ⟨rfl, rfl, rfl, rfl, rfl⟩

theorem length_pos_of_not_blank (s : String) (h : isBlank s = false) :
    0 < s.length := by
  cases s with
  | mk l =>
    cases l with
    | nil => simp [isBlank] at h
    | cons c cs => simp [String.length]

theorem siteLoop_mem_page (pd : String) (rs : List CrawlResult) :
    ∀ i wp, wp ∈ (siteLoop pd i rs).1 →
      ∃ j r, siteStep pd j r = SiteStep.page wp.1 wp.2 := by
  induction rs with
  | nil => intro i wp h; simp [siteLoop] at h
  | cons x xs ih =>
    intro i wp h
    simp only [siteLoop] at h
    cases hstep : siteStep pd i x with
    | err =>
      rw [hstep] at h
      exact ih (i + 1) wp h
    | skip =>
      rw [hstep] at h
      exact ih (i + 1) wp h
    | page w p =>
      rw [hstep] at h
      rcases List.mem_cons.1 h with he | hm
      · refine ⟨i, x, ?_⟩
        rw [hstep, he]
      · exact ih (i + 1) wp hm

theorem siteLoop_mem_of_get (pd : String) (rs : List CrawlResult) :
    ∀ i j r w p, rs.get? j = some r →
      siteStep pd (i + j) r = SiteStep.page w p →
      (w, p) ∈ (siteLoop pd i rs).1 := by
  induction rs with
  | nil => intro i j r w p h _; simp at h
  | cons x xs ih =>
    intro i j r w p hget hstep
    cases j with
    | zero =>
      simp only [List.get?] at hget
      injection hget with he
      subst he
      rw [Nat.add_zero] at hstep
      simp only [siteLoop, hstep]
      exact List.mem_cons_self _ _
    | succ j =>
      have hget2 : xs.get? j = some r := hget
      have hstep2 : siteStep pd ((i + 1) + j) r = SiteStep.page w p := by
        rw [show (i + 1) + j = i + (j + 1) by omega]
        exact hstep
      have hmem := ih (i + 1) j r w p hget2 hstep2
      simp only [siteLoop]
      cases hx : siteStep pd i x with
      | err => exact hmem
      | skip => exact hmem
      | page w0 p0 => exact List.mem_cons_of_mem _ hmem

/-- C7 counterexample: the page file written by the site crawl carries a
blank line between the header line and the URL line, so its layout is not
the claimed header line directly followed by the URL line. -/
theorem page_file_blank_line_counterexample :
    ((crawl_site "http://e/" 3 50 "out"
        [⟨true, "http://e/x", "", MarkdownVal.str "body", some "T",
          some 1⟩]).writes.map FileWrite.content).head? =
      some "# T\n\nURL: http://e/x\nDepth: 1\n\nbody" ∧
    "# T\n\nURL: http://e/x\nDepth: 1\n\nbody" ≠
      claimedPageFileLayout "T" "http://e/x" 1 "body" := by
  constructor
  · decide
  · decide

/-- C7 amended: the site crawl writes into the per-domain directory a pages
subdirectory whose files are named by the zero-padded enumerate ordinal of
the result followed by the sanitized URL path and the md extension, each page
file consisting of the header line with the title, a blank line, the URL
line, the depth line, a blank line, and the extracted markdown body; the
index file is written last at index.md of the per-domain directory. -/
theorem site_layout_files_and_index (url output_dir : String)
    (max_depth max_pages : Int) (results : List CrawlResult) :
    (∃ ic, (crawl_site url max_depth max_pages output_dir
        results).writes.getLast? =
      some ⟨get_output_dir url output_dir ++ "/index.md", ic⟩) ∧
    ∀ j r, results.get? j = some r → r.success = true →
      isBlank (get_markdown r.markdown) = false →
      (⟨get_output_dir url output_dir ++ "/pages" ++ "/" ++
          (formatOrd j ++ "_" ++ sanitize_filename r.url ++ ".md"),
        "# " ++ attrTitle r.title r.url ++ "\n\nURL: " ++ r.url ++
          "\nDepth: " ++ intRepr (attrDepth r.depth) ++ "\n\n" ++
          get_markdown r.markdown⟩ : FileWrite) ∈
        (crawl_site url max_depth max_pages output_dir results).writes := by
  constructor
  · exact ⟨_, by rw [crawl_site_writes_def, List.getLast?_concat]⟩
  · intro j r hget hs hb
    have hstep := siteStep_page_of_content
      (get_output_dir url output_dir ++ "/pages") j r hs hb
    have hstep2 : siteStep (get_output_dir url output_dir ++ "/pages")
        (0 + j) r = SiteStep.page
          ⟨get_output_dir url output_dir ++ "/pages" ++ "/" ++
             (formatOrd j ++ "_" ++ sanitize_filename r.url ++ ".md"),
           pageFileContent (attrTitle r.title r.url) r.url (attrDepth r.depth)
             (get_markdown r.markdown)⟩
          ⟨get_output_dir url output_dir ++ "/pages" ++ "/" ++
             (formatOrd j ++ "_" ++ sanitize_filename r.url ++ ".md"),
           r.url, attrTitle r.title r.url, attrDepth r.depth,
           (get_markdown r.markdown).length⟩ := by
      rw [Nat.zero_add]
      exact hstep
    have hmem := siteLoop_mem_of_get
      (get_output_dir url output_dir ++ "/pages") results 0 j r _ _ hget hstep2
    rw [crawl_site_writes_def]
    refine List.mem_append.2 (Or.inl ?_)
    exact List.mem_map.2 ⟨_, hmem, rfl⟩

/-- C7 witness at a single successful result with body content. -/
theorem site_layout_files_and_index_witness :
    (([⟨true, "http://e/x", "", MarkdownVal.str "body", some "T",
        some 1⟩] : List CrawlResult).get? 0 =
        some ⟨true, "http://e/x", "", MarkdownVal.str "body", some "T",
          some 1⟩ ∧
      (⟨true, "http://e/x", "", MarkdownVal.str "body", some "T",
        some 1⟩ : CrawlResult).success = true ∧
      isBlank (get_markdown (MarkdownVal.str "body")) = false) ∧
    (⟨get_output_dir "http://e/" "out" ++ "/pages" ++ "/" ++
        (formatOrd 0 ++ "_" ++ sanitize_filename "http://e/x" ++ ".md"),
      "# " ++ attrTitle (some "T") "http://e/x" ++ "\n\nURL: " ++
        "http://e/x" ++ "\nDepth: " ++ intRepr (attrDepth (some 1)) ++
        "\n\n" ++ get_markdown (MarkdownVal.str "body")⟩ : FileWrite) ∈
      (crawl_site "http://e/" 3 50 "out"
        [⟨true, "http://e/x", "", MarkdownVal.str "body", some "T",
          some 1⟩]).writes :=
  ⟨⟨rfl, rfl, by decide⟩,
   (site_layout_files_and_index "http://e/" "out" 3 50
       [⟨true, "http://e/x", "", MarkdownVal.str "body", some "T",
         some 1⟩]).2 0
     ⟨true, "http://e/x", "", MarkdownVal.str "body", some "T", some 1⟩
     rfl rfl (by decide)⟩

/-- C10: every entry collected by the site loop records as its size the
character length of the markdown body written into that entry's file, that
size is strictly positive since whitespace-only pages are never added, and
the reported total content size equals the sum of the sizes of all collected
entries, hence of the bodies of all written page files. -/
theorem site_entry_sizes_match_files (url output_dir : String)
    (max_depth max_pages : Int) (results : List CrawlResult) :
    (∀ wp ∈ (siteLoop (get_output_dir url output_dir ++ "/pages") 0
        results).1,
      wp.1.path = wp.2.file ∧
      ∃ body, wp.1.content =
          pageFileContent wp.2.title wp.2.url wp.2.depth body ∧
        wp.2.size = body.length ∧ 0 < wp.2.size) ∧
    (∀ p ∈ (crawl_site url max_depth max_pages output_dir results).pages,
      0 < p.size) ∧
    (crawl_site url max_depth max_pages output_dir results).total_size =
      (((siteLoop (get_output_dir url output_dir ++ "/pages") 0
          results).1.map Prod.snd).map PageEntry.size).sum := by
  have key : ∀ wp ∈ (siteLoop (get_output_dir url output_dir ++ "/pages") 0
      results).1,
      wp.1.path = wp.2.file ∧
      ∃ body, wp.1.content =
          pageFileContent wp.2.title wp.2.url wp.2.depth body ∧
        wp.2.size = body.length ∧ 0 < wp.2.size := by
    intro wp hwp
    obtain ⟨j, r, hstep⟩ :=
      siteLoop_mem_page (get_output_dir url output_dir ++ "/pages") results 0
        wp hwp
    obtain ⟨hs, hb, hpath, hcontent, hsize⟩ :=
      siteStep_page_inv _ j r wp.1 wp.2 hstep
    have hpos := length_pos_of_not_blank _ hb
    exact ⟨hpath, get_markdown r.markdown, hcontent, hsize, by omega⟩
  refine ⟨key, ?_, ?_⟩
  · intro p hp
    rw [crawl_site_pages] at hp
    have hp2 := (List.mergeSort_perm _ pageLe).mem_iff.1 hp
    obtain ⟨wp, hwp, he⟩ := List.mem_map.1 hp2
    obtain ⟨_, body, _, hsz, hpos⟩ := key wp hwp
    rw [← he]
    exact hpos
  · rw [crawl_site_total_size_def, crawl_site_pages]
    exact List.Perm.sum_eq
      (List.Perm.map PageEntry.size (List.mergeSort_perm _ _))

/-- C10 witness at a concrete collected entry. -/
theorem site_entry_sizes_match_files_witness :
    ((⟨"out/e/pages/000_x.md", "# T\n\nURL: http://e/x\nDepth: 1\n\nbody"⟩,
       ⟨"out/e/pages/000_x.md", "http://e/x", "T", (1 : Int), 4⟩) :
        FileWrite × PageEntry) ∈
      (siteLoop (get_output_dir "http://e/" "out" ++ "/pages") 0
        [⟨true, "http://e/x", "", MarkdownVal.str "body", some "T",
          some 1⟩]).1 ∧
    ((⟨"out/e/pages/000_x.md", "# T\n\nURL: http://e/x\nDepth: 1\n\nbody"⟩,
        ⟨"out/e/pages/000_x.md", "http://e/x", "T", (1 : Int), 4⟩) :
          FileWrite × PageEntry).1.path =
      ((⟨"out/e/pages/000_x.md", "# T\n\nURL: http://e/x\nDepth: 1\n\nbody"⟩,
        ⟨"out/e/pages/000_x.md", "http://e/x", "T", (1 : Int), 4⟩) :
          FileWrite × PageEntry).2.file ∧
    ∃ body,
      ((⟨"out/e/pages/000_x.md", "# T\n\nURL: http://e/x\nDepth: 1\n\nbody"⟩,
        ⟨"out/e/pages/000_x.md", "http://e/x", "T", (1 : Int), 4⟩) :
          FileWrite × PageEntry).1.content =
        pageFileContent "T" "http://e/x" 1 body ∧
      (4 : Nat) = body.length ∧ (0 : Nat) < 4 :=
  ⟨by decide,
   ((site_entry_sizes_match_files "http://e/" "out" 3 50
        [⟨true, "http://e/x", "", MarkdownVal.str "body", some "T",
          some 1⟩]).1 _ (by decide)).1,
   ((site_entry_sizes_match_files "http://e/" "out" 3 50
        [⟨true, "http://e/x", "", MarkdownVal.str "body", some "T",
          some 1⟩]).1 _ (by decide)).2⟩

/-! Character-level lemmas for sanitize_filename. -/

theorem strMk_toList (s : String) : String.mk s.toList = s := rfl

theorem toList_append (a b : String) :
    (a ++ b).toList = a.toList ++ b.toList := String.data_append a b

theorem not_mem_of_all_keep (l : List Char) (c : Char)
    (hall : l.all isFilenameKeep = true) (hc : isFilenameKeep c = false) :
    c ∉ l := by
  intro hm
  have h := List.all_eq_true.1 hall c hm
  rw [hc] at h
  exact Bool.false_ne_true h

theorem splitAtChar_eq_none (sep : Char) (l : List Char) (h : sep ∉ l) :
    splitAtChar sep l = Option.none := by
  induction l with
  | nil => rfl
  | cons c cs ih =>
    have h1 : ¬ c = sep := fun he => h (he ▸ List.mem_cons_self c cs)
    have h2 : sep ∉ cs := fun hm => h (List.mem_cons_of_mem _ hm)
    simp [splitAtChar, h1, ih h2]

theorem dropWhile_slash_eq_self (l : List Char) (h : '/' ∉ l) :
    l.dropWhile (fun c => c = '/') = l := by
  cases l with
  | nil => rfl
  | cons c cs =>
    have hc : ¬ (c = '/') := fun he => h (he ▸ List.mem_cons_self c cs)
    simp [List.dropWhile_cons, hc]

theorem urlparse_of_keep (l : List Char) (hall : l.all isFilenameKeep = true) :
    urlparse (String.mk l) = ⟨"", "", String.mk l, "", ""⟩ := by
  have hc : (':' : Char) ∉ l := not_mem_of_all_keep l ':' hall (by decide)
  have hsl : ('/' : Char) ∉ l := not_mem_of_all_keep l '/' hall (by decide)
  have hq : ('?' : Char) ∉ l := not_mem_of_all_keep l '?' hall (by decide)
  have hh : ('#' : Char) ∉ l := not_mem_of_all_keep l '#' hall (by decide)
  have hsc : (';' : Char) ∉ l := not_mem_of_all_keep l ';' hall (by decide)
  have h1 : splitScheme l = ([], l) := by
    simp [splitScheme, splitAtChar_eq_none ':' l hc]
  have hns : l.take 2 ≠ ['/', '/'] := by
    intro he
    exact hsl (List.mem_of_mem_take
      (by rw [he]; exact List.mem_cons_self _ _))
  have h2 : splitNetlocPart l = ([], l) := by
    simp [splitNetlocPart, hns]
  have h3 : splitFragmentPart l = (l, []) := by
    simp [splitFragmentPart, splitAtChar_eq_none '#' l hh]
  have h4 : splitQueryPart l = (l, []) := by
    simp [splitQueryPart, splitAtChar_eq_none '?' l hq]
  have h5 : l.contains ';' = false := by simpa using hsc
  simp only [urlparse]
  rw [show (String.mk l).toList = l from rfl, h1]
  simp only [h2, h3, h4, h5, Bool.and_false, Bool.false_eq_true, if_false]

theorem map_slash_eq_self (l : List Char) (h : '/' ∉ l) :
    l.map (fun c => if c = '/' then '_' else c) = l := by
  conv_rhs => rw [← List.map_id l]
  refine List.map_congr_left ?_
  intro c hc
  have hne : ¬ c = '/' := fun he => h (he ▸ hc)
  simp [hne]

theorem map_keep_eq_self (l : List Char) (hall : l.all isFilenameKeep = true) :
    l.map (fun c => if isFilenameKeep c then c else '_') = l := by
  conv_rhs => rw [← List.map_id l]
  refine List.map_congr_left ?_
  intro c hc
  have hk := List.all_eq_true.1 hall c hc
  simp [hk]

theorem sanitize_filename_fixpoint (l : List Char) (h1 : l ≠ [])
    (h2 : l.length ≤ 100) (hall : l.all isFilenameKeep = true) :
    sanitize_filename (String.mk l) = String.mk l := by
  have hsl : ('/' : Char) ∉ l := not_mem_of_all_keep l '/' hall (by decide)
  have hsl2 : ('/' : Char) ∉ l.reverse := by simpa using hsl
  simp only [sanitize_filename, urlparse_of_keep l hall]
  rw [show (⟨"", "", String.mk l, "", ""⟩ : ParseResult).path.toList = l
    from rfl]
  rw [dropWhile_slash_eq_self l hsl, dropWhile_slash_eq_self _ hsl2,
    List.reverse_reverse, map_slash_eq_self l hsl]
  rw [if_neg h1]
  rw [map_keep_eq_self l hall, List.take_of_length_le h2]

theorem sanitize_filename_all_keep (url : String) :
    (sanitize_filename url).toList.all isFilenameKeep = true := by
  unfold sanitize_filename
  apply List.all_eq_true.2
  intro c hc
  have hc2 := List.mem_of_mem_take hc
  obtain ⟨a, _, he⟩ := List.mem_map.1 hc2
  by_cases hk : isFilenameKeep a = true
  · rw [← he, if_pos hk]
    exact hk
  · rw [← he, if_neg hk]
    decide

theorem sanitize_filename_ne_nil (url : String) :
    (sanitize_filename url).toList ≠ [] := by
  unfold sanitize_filename
  intro he
  rcases List.take_eq_nil_iff.1 he with h | h
  · exact absurd h (by norm_num)
  · rw [List.map_eq_nil_iff] at h
    revert h
    split
    · decide
    · exact fun h2 => absurd h2 (by assumption)

theorem sanitize_filename_length_le (url : String) :
    (sanitize_filename url).toList.length ≤ 100 := by
  unfold sanitize_filename
  exact le_trans (le_of_eq (List.length_take _ _)) (min_le_left _ _)

/-- C9: sanitize_filename is idempotent: applied to its own output it
returns the output unchanged, since the output is nonempty, at most 100
characters long, and drawn from the kept alphabet of word characters,
hyphen and dot, every part of the sanitization fixes it. -/
theorem sanitize_filename_idempotent (url : String) :
    sanitize_filename (sanitize_filename url) = sanitize_filename url := by
  have h := sanitize_filename_fixpoint (sanitize_filename url).toList
    (sanitize_filename_ne_nil url) (sanitize_filename_length_le url)
    (sanitize_filename_all_keep url)
  rwa [strMk_toList] at h

/-! Lemmas about the characters of generated file names and directories. -/

theorem digitChar_keep (k : Nat) (h : k < 10) :
    isFilenameKeep (digitChar k) = true := by
  interval_cases k <;> decide

theorem natDigitsRevAux_all_keep (fuel : Nat) : ∀ n,
    (natDigitsRevAux n fuel).all isFilenameKeep = true := by
  induction fuel with
  | zero => intro n; rfl
  | succ fuel ih =>
    intro n
    by_cases h : n < 10
    · simp [natDigitsRevAux, h, digitChar_keep n h]
    · simp [natDigitsRevAux, h, ih (n / 10),
        digitChar_keep (n % 10) (Nat.mod_lt n (by norm_num))]

theorem natRepr_all_keep (n : Nat) :
    (natRepr n).toList.all isFilenameKeep = true := by
  show ((natDigitsRev n).reverse).all isFilenameKeep = true
  rw [List.all_reverse]
  exact natDigitsRevAux_all_keep (n + 1) n

theorem replicate_zero_keep (n : Nat) :
    (List.replicate n '0').all isFilenameKeep = true := by
  apply List.all_eq_true.2
  intro x hx
  rw [List.eq_of_mem_replicate hx]
  decide

theorem formatOrd_all_keep (i : Nat) :
    (formatOrd i).toList.all isFilenameKeep = true := by
  simp only [formatOrd]
  split
  · rw [toList_append, List.all_append]
    rw [show (String.mk (List.replicate (3 - (natRepr i).length) '0')).toList
      = List.replicate (3 - (natRepr i).length) '0' from rfl]
    rw [replicate_zero_keep, natRepr_all_keep]
    rfl
  · exact natRepr_all_keep i

theorem filename_all_keep (i : Nat) (url : String) :
    (formatOrd i ++ "_" ++ sanitize_filename url ++ ".md").toList.all
      isFilenameKeep = true := by
  rw [toList_append, toList_append, toList_append]
  simp only [List.all_append, Bool.and_eq_true]
  exact ⟨⟨⟨formatOrd_all_keep i, by decide⟩,
    sanitize_filename_all_keep url⟩, by decide⟩

theorem append_underscore_md_ne_dotdot (a b : String) :
    a ++ "_" ++ b ++ ".md" ≠ ".." := by
  intro he
  have h := congrArg String.length he
  rw [String.length_append, String.length_append, String.length_append] at h
  rw [show ("_" : String).length = 1 from rfl,
    show (".md" : String).length = 3 from rfl,
    show (".." : String).length = 2 from rfl] at h
  omega

theorem append_md_ne_dotdot (b : String) : b ++ ".md" ≠ ".." := by
  intro he
  have h := congrArg String.length he
  rw [String.length_append] at h
  rw [show (".md" : String).length = 3 from rfl,
    show (".." : String).length = 2 from rfl] at h
  omega

theorem takeNetloc_no_slash (l : List Char) : '/' ∉ (takeNetloc l).1 := by
  induction l with
  | nil => simp [takeNetloc]
  | cons c cs ih =>
    by_cases hc : (c = '/' || c = '?' || c = '#' : Bool) = true
    · simp [takeNetloc, hc]
    · simp only [takeNetloc, hc, if_false, Bool.false_eq_true]
      intro hm
      rcases List.mem_cons.1 hm with he | hm2
      · apply hc
        rw [← he]
        simp
      · exact ih hm2

theorem urlparse_netloc_no_slash (url : String) :
    '/' ∉ (urlparse url).netloc.toList := by
  show '/' ∉ (splitNetlocPart (splitScheme url.toList).2).1
  unfold splitNetlocPart
  split
  · exact takeNetloc_no_slash _
  · simp

theorem domain_no_slash (url : String) :
    '/' ∉ ((urlparse url).netloc.toList.map
      (fun c => if c = ':' then '_' else c)) := by
  intro hm
  obtain ⟨a, ha, he⟩ := List.mem_map.1 hm
  by_cases hc : a = ':'
  · rw [if_pos hc] at he
    exact absurd he (by decide)
  · rw [if_neg hc] at he
    exact urlparse_netloc_no_slash url (he ▸ ha)

theorem colon_map_eq_dot (a : Char) (h : (if a = ':' then '_' else a) = '.') :
    a = '.' := by
  by_cases hc : a = ':'
  · rw [if_pos hc] at h
    exact absurd h (by decide)
  · rwa [if_neg hc] at h

theorem domain_ne_dotdot (url : String)
    (hn : (urlparse url).netloc ≠ "..") :
    String.mk ((urlparse url).netloc.toList.map
      (fun c => if c = ':' then '_' else c)) ≠ ".." := by
  intro he
  apply hn
  have he2 : (urlparse url).netloc.toList.map
      (fun c => if c = ':' then '_' else c) = ['.', '.'] := by
    have h := congrArg String.toList he
    simpa using h
  cases hl : (urlparse url).netloc.toList with
  | nil => rw [hl] at he2; simp at he2
  | cons a t =>
    cases t with
    | nil => rw [hl] at he2; simp at he2
    | cons b t2 =>
      cases t2 with
      | nil =>
        rw [hl] at he2
        simp only [List.map_cons, List.map_nil, List.cons.injEq,
          and_true] at he2
        obtain ⟨ha, hb⟩ := he2
        rw [← strMk_toList (urlparse url).netloc, hl,
          colon_map_eq_dot a ha, colon_map_eq_dot b hb]
      | cons c t3 =>
        rw [hl] at he2
        have := congrArg List.length he2
        simp at this

/-! Resolution of the write paths against the output root. -/

theorem escapesAux_single (f : String) (hf : f ≠ "..") (n : Nat) :
    escapesAux [f] n = false := by
  by_cases h1 : f = "." <;> by_cases h2 : f = "" <;>
    simp [escapesAux, hf, h1, h2]

theorem escapesAux_pair (d f : String) (hd : d ≠ "..") (hf : f ≠ "..") :
    escapesAux [d, f] 0 = false := by
  by_cases h1 : d = "." <;> by_cases h2 : d = "" <;>
    simp [escapesAux, hd, hf, h1, h2]

theorem escapesAux_triple (d f : String) (hd : d ≠ "..") :
    escapesAux [d, "pages", f] 0 = false := by
  by_cases h1 : d = "." <;> by_cases h2 : d = "" <;>
    by_cases h3 : f = ".." <;> by_cases h4 : f = "." <;>
    by_cases h5 : f = "" <;> simp [escapesAux, hd, h1, h2, h3, h4, h5]

theorem siteStep_page_path (pd : String) (i : Nat) (r : CrawlResult)
    (w : FileWrite) (p : PageEntry)
    (h : siteStep pd i r = SiteStep.page w p) :
    w.path =
      pd ++ "/" ++ (formatOrd i ++ "_" ++ sanitize_filename r.url ++ ".md") := by
  cases hs : r.success with
  | false =>
    rw [(siteStep_err_iff pd i r).2 hs] at h
    exact SiteStep.noConfusion h
  | true =>
    cases hb : isBlank (get_markdown r.markdown) with
    | true =>
      rw [siteStep_skip_of_blank pd i r hs hb] at h
      exact SiteStep.noConfusion h
    | false =>
      rw [siteStep_page_of_content pd i r hs hb] at h
      injection h with hw hp
      rw [← hw]

theorem siteLoop_write_path_shape (pd : String) (rs : List CrawlResult)
    (i : Nat) (w : FileWrite)
    (hw : w ∈ (siteLoop pd i rs).1.map Prod.fst) :
    ∃ fn : String, w.path = pd ++ "/" ++ fn ∧
      fn.toList.all isFilenameKeep = true ∧ fn ≠ ".." := by
  obtain ⟨wp, hwp, he⟩ := List.mem_map.1 hw
  obtain ⟨j, r, hstep⟩ := siteLoop_mem_page pd rs i wp hwp
  refine ⟨formatOrd j ++ "_" ++ sanitize_filename r.url ++ ".md", ?_, ?_, ?_⟩
  · rw [← he]
    exact siteStep_page_path pd j r wp.1 wp.2 hstep
  · exact filename_all_keep j r.url
  · exact append_underscore_md_ne_dotdot _ _

theorem out_dir_pages_path (url base fn : String) :
    get_output_dir url base ++ "/pages" ++ "/" ++ fn =
      base ++ "/" ++ joinPath
        [String.mk ((urlparse url).netloc.toList.map
          (fun c => if c = ':' then '_' else c)), "pages", fn] := by
  simp only [get_output_dir, joinPath, String.append_assoc]
  rfl

theorem out_dir_index_path (url base : String) :
    get_output_dir url base ++ "/index.md" =
      base ++ "/" ++ joinPath
        [String.mk ((urlparse url).netloc.toList.map
          (fun c => if c = ':' then '_' else c)), "index.md"] := by
  simp only [get_output_dir, joinPath, String.append_assoc]
  rfl

theorem out_dir_file_path (url base fn : String) :
    get_output_dir url base ++ "/" ++ fn =
      base ++ "/" ++ joinPath
        [String.mk ((urlparse url).netloc.toList.map
          (fun c => if c = ':' then '_' else c)), fn] := by
  simp only [get_output_dir, joinPath, String.append_assoc]

/-- C6 counterexample: a URL whose network authority is the dot-dot segment
makes the site crawl write its index file outside the designated output root,
since the per-domain directory is taken from the authority with only colons
replaced; the relative path of that write resolves above the root. -/
theorem site_write_escapes_root_on_dotdot_authority :
    ((crawl_site "http://../x" 3 50 "out" []).writes.map FileWrite.path) =
      ["out/../index.md"] ∧
    escapesRoot "../index.md" = true := by
  constructor
  · decide
  · decide

/-- C6 amended: the sanitized filename always consists of word characters,
hyphen and dot only, never a path separator, so malicious path segments are
neutralized; and provided the network authority of the crawled URL is not the
dot-dot segment, every file written by the site crawl and by the single-page
crawl lies inside the designated output root: each write path splits as the
output root followed by separator-free components whose resolution never
ascends above the root. -/
theorem sanitize_neutralizes_and_writes_stay_in_root (url output_dir : String)
    (max_depth max_pages : Int) (results : List CrawlResult)
    (r0 : CrawlResult) (hn : (urlparse url).netloc ≠ "..") :
    ((sanitize_filename url).toList.all isFilenameKeep = true ∧
      '/' ∉ (sanitize_filename url).toList) ∧
    (∀ w ∈ (crawl_site url max_depth max_pages output_dir results).writes,
      ∃ parts : List String,
        w.path = output_dir ++ "/" ++ joinPath parts ∧
        (∀ s ∈ parts, '/' ∉ s.toList) ∧ escapesAux parts 0 = false) ∧
    ∀ w ∈ (crawl_page url output_dir r0).writes,
      ∃ parts : List String,
        w.path = output_dir ++ "/" ++ joinPath parts ∧
        (∀ s ∈ parts, '/' ∉ s.toList) ∧ escapesAux parts 0 = false := by
  have hdm_ne := domain_ne_dotdot url hn
  refine ⟨⟨sanitize_filename_all_keep url,
    not_mem_of_all_keep _ '/' (sanitize_filename_all_keep url) (by decide)⟩,
    ?_, ?_⟩
  · intro w hw
    rw [crawl_site_writes_def] at hw
    rcases List.mem_append.1 hw with hw1 | hw2
    · obtain ⟨fn, hpath, hkeep, hne⟩ :=
        siteLoop_write_path_shape _ results 0 w hw1
      refine ⟨[String.mk ((urlparse url).netloc.toList.map
          (fun c => if c = ':' then '_' else c)), "pages", fn], ?_, ?_, ?_⟩
      · rw [hpath]
        exact out_dir_pages_path url output_dir fn
      · intro s hs
        rcases List.mem_cons.1 hs with rfl | hs2
        · exact domain_no_slash url
        · rcases List.mem_cons.1 hs2 with rfl | hs3
          · decide
          · rcases List.mem_cons.1 hs3 with rfl | hs4
            · exact not_mem_of_all_keep _ '/' hkeep (by decide)
            · exact absurd hs4 (List.not_mem_nil s)
      · exact escapesAux_triple _ fn hdm_ne
    · rw [List.mem_singleton] at hw2
      refine ⟨[String.mk ((urlparse url).netloc.toList.map
          (fun c => if c = ':' then '_' else c)), "index.md"], ?_, ?_, ?_⟩
      · rw [hw2]
        exact out_dir_index_path url output_dir
      · intro s hs
        rcases List.mem_cons.1 hs with rfl | hs2
        · exact domain_no_slash url
        · rcases List.mem_cons.1 hs2 with rfl | hs3
          · decide
          · exact absurd hs3 (List.not_mem_nil s)
      · exact escapesAux_pair _ "index.md" hdm_ne (by decide)
  · intro w hw
    cases hs : r0.success with
    | false => simp [crawl_page, hs] at hw
    | true =>
      simp only [crawl_page, hs] at hw
      rw [if_neg (by simp)] at hw
      rw [List.mem_singleton] at hw
      have hfn_slash : '/' ∉ (sanitize_filename url ++ ".md").toList := by
        rw [toList_append]
        intro hm
        rcases List.mem_append.1 hm with h | h
        · exact not_mem_of_all_keep _ '/'
            (sanitize_filename_all_keep url) (by decide) h
        · exact absurd h (by decide)
      refine ⟨[String.mk ((urlparse url).netloc.toList.map
          (fun c => if c = ':' then '_' else c)),
          sanitize_filename url ++ ".md"], ?_, ?_, ?_⟩
      · rw [hw]
        exact out_dir_file_path url output_dir (sanitize_filename url ++ ".md")
      · intro s hs2
        rcases List.mem_cons.1 hs2 with rfl | hs3
        · exact domain_no_slash url
        · rcases List.mem_cons.1 hs3 with rfl | hs4
          · exact hfn_slash
          · exact absurd hs4 (List.not_mem_nil s)
      · exact escapesAux_pair _ _ hdm_ne (append_md_ne_dotdot _)

/-- C6 witness at a concrete URL with an ordinary authority. -/
theorem sanitize_neutralizes_and_writes_stay_in_root_witness :
    (urlparse "http://example.com/a").netloc ≠ ".." ∧
    (((sanitize_filename "http://example.com/a").toList.all isFilenameKeep =
        true ∧
      '/' ∉ (sanitize_filename "http://example.com/a").toList) ∧
    (∀ w ∈ (crawl_site "http://example.com/a" 3 50 "out" []).writes,
      ∃ parts : List String,
        w.path = "out" ++ "/" ++ joinPath parts ∧
        (∀ s ∈ parts, '/' ∉ s.toList) ∧ escapesAux parts 0 = false) ∧
    ∀ w ∈ (crawl_page "http://example.com/a" "out"
        ⟨true, "http://example.com/a", "", MarkdownVal.str "body",
         Option.none, Option.none⟩).writes,
      ∃ parts : List String,
        w.path = "out" ++ "/" ++ joinPath parts ∧
        (∀ s ∈ parts, '/' ∉ s.toList) ∧ escapesAux parts 0 = false) :=
  ⟨by decide,
   sanitize_neutralizes_and_writes_stay_in_root "http://example.com/a" "out"
     3 50 []
     ⟨true, "http://example.com/a", "", MarkdownVal.str "body", Option.none,
      Option.none⟩
     (by decide)⟩
